import Mathlib

/-!
Shallow embedding of the parameter-store CLI tool (Go sources: features
package and main).  Strings are modelled at the character-list level so
that every definition is kernel-executable; Go byte lengths coincide with
character counts on the ASCII inputs the tool manipulates.
-/

namespace ParamStore

/-! ## Character-level string utilities (models of Go strings functions) -/

/-- Model of Go unicode.IsSpace restricted to the ASCII space characters
Go recognises: space, tab, newline, vertical tab, form feed, carriage return. -/
def isSpaceGo (c : Char) : Bool :=
  c == ' ' || c == '\t' || c == '\n' || c == '\x0b' || c == '\x0c' || c == '\r'

/-- Drop leading space characters from a character list. -/
def trimLeftCh : List Char → List Char
  | [] => []
  | c :: cs => if isSpaceGo c then trimLeftCh cs else c :: cs

/-- Model of Go strings.TrimSpace on a character list: drop leading and
trailing space characters. -/
def trimCh (cs : List Char) : List Char :=
  ((trimLeftCh ((trimLeftCh cs.reverse)).reverse))

/-- Model of Go strings.TrimSpace. -/
def trimSpace (s : String) : String :=
  ⟨trimCh s.data⟩

/-- Is the first list a prefix of the second? -/
def isPrefixCh : List Char → List Char → Bool
  | [], _ => true
  | _ :: _, [] => false
  | a :: as, b :: bs => a == b && isPrefixCh as bs

/-- Model of Go strings.HasPrefix s pre. -/
def hasPrefixStr (s pre : String) : Bool :=
  isPrefixCh pre.data s.data

/-- Does the character list `hay` contain `needle` as a contiguous run?
Model of Go strings.Contains (true for the empty needle). -/
def containsCh (needle : List Char) : List Char → Bool
  | [] => needle.isEmpty
  | c :: t => isPrefixCh needle (c :: t) || containsCh needle t

/-- Model of Go strings.Contains s sub. -/
def containsStr (s sub : String) : Bool :=
  containsCh sub.data s.data

/-- Model of Go strings.ToLower (ASCII case folding, which is all the
tool's inputs exercise). -/
def toLowerStr (s : String) : String :=
  ⟨s.data.map Char.toLower⟩

/-- Model of Go strings.TrimPrefix s pre: remove `pre` from the front of
`s` when it is a prefix, otherwise return `s` unchanged. -/
def trimPrefixGo (s pre : String) : String :=
  if hasPrefixStr s pre then ⟨s.data.drop pre.data.length⟩ else s

/-- Split a character list on a separator character; mirrors Go
strings.Split with a one-character separator (never returns an empty list). -/
def splitOnCh (sep : Char) : List Char → List (List Char)
  | [] => [[]]
  | c :: cs =>
    let r := splitOnCh sep cs
    if c == sep then [] :: r
    else
      match r with
      | [] => [[c]]
      | h :: t => (c :: h) :: t

/-- Model of Go strings.Split with a one-character separator. -/
def goSplit (s : String) (sep : Char) : List String :=
  (splitOnCh sep s.data).map (fun l => String.mk l)

/-- Split file contents into physical lines, as Go strings.Split(data, newline). -/
def splitLines (s : String) : List String :=
  goSplit s '\n'

/-! ## Data model (features/utils.go) -/

/-- Model of the Go ParameterType string type. -/
abbrev ParameterType := String

/-- The String parameter type constant. -/
def StringType : ParameterType := "String"

/-- The SecureString parameter type constant. -/
def SecureStringType : ParameterType := "SecureString"

/-- The StringList parameter type constant. -/
def StringListType : ParameterType := "StringList"

/-- Model of the Go Environment struct (static environment variable). -/
structure EnvVar where
  name : String
  value : String
deriving DecidableEq, Repr

/-- Model of the Go ExtendedSecret struct.  The Go field named Type is a
Lean keyword, so it is rendered Typ here. -/
structure ExtendedSecret where
  Name : String
  ValueFrom : String
  Typ : ParameterType
  Value : String
deriving DecidableEq, Repr

/-- Model of the Go ContainerDefinition struct. -/
structure ContainerDefinition where
  Environment : List EnvVar
  Secrets : List ExtendedSecret
deriving DecidableEq, Repr

/-- Model of the Go TaskDefinition struct. -/
structure TaskDefinition where
  ContainerDefinitions : List ContainerDefinition
deriving DecidableEq, Repr

/-! ## The secret classifier (detectParameterType, features package) -/

/-- The keyword list of detectParameterType, in source order. -/
def secretKeywords : List String :=
  ["password", "secret", "key", "token", "api", "auth", "credential",
   "private", "cert", "ssl", "secure"]

/-- Character class [A-Za-z0-9+/=] of the long-alphanumeric and JWT regexes. -/
def isB64Char (c : Char) : Bool :=
  c.isAlpha || c.isDigit || c == '+' || c == '/' || c == '='

/-- Character class [A-Za-z0-9+/=\-\n] of the trailing token-like regex. -/
def isTokenChar (c : Char) : Bool :=
  isB64Char c || c == '-' || c == '\n'

/-- Model of the anchored regex match on [A-Za-z0-9+/=] repeated 20 or more
times spanning the whole value. -/
def reLongAlnum (value : String) : Bool :=
  decide (20 ≤ value.data.length) && value.data.all isB64Char

/-- Model of the anchored regex for a URL with embedded credentials:
an http or https scheme followed by one or more non-at characters and an
at sign.  The match succeeds exactly when the text after the scheme is
non-empty, does not begin with the at sign, and contains one. -/
def reUrlCreds (value : String) : Bool :=
  let rest : Option (List Char) :=
    if hasPrefixStr value "https://" then some (value.data.drop 8)
    else if hasPrefixStr value "http://" then some (value.data.drop 7)
    else none
  match rest with
  | none => false
  | some r =>
    match r with
    | [] => false
    | c :: cs => c != '@' && cs.contains '@'

/-- Model of the whole-string JWT-shape regex: three dot-separated
segments, each non-empty and drawn from [A-Za-z0-9+/=]. -/
def reJwt (value : String) : Bool :=
  match splitOnCh '.' value.data with
  | [a, b, c] =>
    !a.isEmpty && !b.isEmpty && !c.isEmpty
      && a.all isB64Char && b.all isB64Char && c.all isB64Char
  | _ => false

/-- Model of detectParameterType: decide whether a key/value pair is a
secret, by the key-keyword rule first and then the value-pattern rules,
in source order. -/
def detectParameterType (key value : String) : ParameterType :=
  let lowerKey := toLowerStr key
  if secretKeywords.any (fun kw => containsStr lowerKey kw) then SecureStringType
  else if containsStr value "-----BEGIN" then SecureStringType
  else if reLongAlnum value then SecureStringType
  else if reUrlCreds value then SecureStringType
  else if reJwt value then SecureStringType
  else if decide (20 < value.data.length) && value.data.all isTokenChar then SecureStringType
  else StringType

/-! ## The env-file parser (GenerateTaskDefFromEnv, features package) -/

/-- Scanner for the tail of the new-entry regex: zero or more characters
from [A-Z0-9_] followed by an equals sign. -/
def matchKeyRest : List Char → Bool
  | [] => false
  | c :: rest =>
    if c == '=' then true
    else if c.isUpper || c.isDigit || c == '_' then matchKeyRest rest
    else false

/-- Model of the anchored regex on [A-Z_][A-Z0-9_]* followed by an equals
sign, matched at the start of the line (the Go pattern is anchored with a
caret only, so the rest of the line is unconstrained). -/
def matchEnvKey : List Char → Bool
  | [] => false
  | c :: rest => (c.isUpper || c == '_') && matchKeyRest rest

/-- The new-entry test applied to a trimmed line. -/
def matchEnvKeyLine (s : String) : Bool :=
  matchEnvKey s.data

/-- Split a character list at the first equals sign, if any. -/
def splitEqCh : List Char → Option (List Char × List Char)
  | [] => none
  | c :: cs =>
    if c == '=' then some ([], cs)
    else
      match splitEqCh cs with
      | none => none
      | some (a, b) => some (c :: a, b)

/-- Model of Go strings.SplitN(line, eq, 2): the part before the first
equals sign and everything after it, or failure when the line has none. -/
def splitFirstEq (s : String) : Option (String × String) :=
  match splitEqCh s.data with
  | none => none
  | some (a, b) => some (⟨a⟩, ⟨b⟩)

/-- The inner accumulation loop of GenerateTaskDefFromEnv: starting at
line index j, append each trimmed non-empty line that is not a new
key=value line to the value, preceded by a newline; stop (returning the
index just before the new entry) when a new-entry line is met.  The
running index iCur is updated to the last line index when the end of the
file is reached, exactly as the Go loop updates i.  The fuel argument
only bounds the recursion; the loop itself stops at the end of the line
list, and lines.length - j fuel is always enough. -/
def accumulate (lines : List String) : Nat → Nat → String → Nat → String × Nat
  | 0, _, value, iCur => (value, iCur)
  | fuel + 1, j, value, iCur =>
    if h : j < lines.length then
      let nextLine := trimSpace lines[j]
      if matchEnvKeyLine nextLine then (value, j - 1)
      else
        accumulate lines fuel (j + 1)
          (if nextLine == "" then value else value ++ "\n" ++ nextLine)
          (if j == lines.length - 1 then j else iCur)
    else (value, iCur)

/-- The outer parsing loop of GenerateTaskDefFromEnv, instrumented so
that every produced entry carries the index of the line that opened it
(the Go code produces exactly the second components, in the same order).
Blank and comment lines are skipped, a line without an equals sign is
skipped, and a key=value line opens an entry whose value is completed by
the accumulation loop; parsing resumes after the lines the accumulation
consumed. -/
def genSecretsGo (lines : List String) (pre : String) :
    Nat → Nat → List (Nat × ExtendedSecret)
  | 0, _ => []
  | fuel + 1, i =>
    if h : i < lines.length then
      let line := trimSpace lines[i]
      if line == "" || hasPrefixStr line "#" then genSecretsGo lines pre fuel (i + 1)
      else
        match splitFirstEq line with
        | none => genSecretsGo lines pre fuel (i + 1)
        | some kv =>
          let key := trimSpace kv.1
          let r := accumulate lines (lines.length - (i + 1)) (i + 1) (trimSpace kv.2) i
          (i, { Name := key, ValueFrom := pre ++ key,
                Typ := detectParameterType key r.1, Value := r.1 })
            :: genSecretsGo lines pre fuel (r.2 + 1)
    else []

/-- Parsed entries together with the index of the line that opened each. -/
def genSecretsIdx (lines : List String) (pre : String) : List (Nat × ExtendedSecret) :=
  genSecretsGo lines pre lines.length 0

/-- The secrets list GenerateTaskDefFromEnv builds from the env-file lines. -/
def genSecrets (lines : List String) (pre : String) : List ExtendedSecret :=
  (genSecretsIdx lines pre).map Prod.snd

/-- The pure core of GenerateTaskDefFromEnv: parse the env-file contents
and wrap the secrets in a task definition with a single container whose
environment array is left empty. -/
def generateTaskDefFromEnv (content pre : String) : TaskDefinition :=
  { ContainerDefinitions := [{ Environment := [], Secrets := genSecrets (splitLines content) pre }] }

/-- The trimmed non-empty continuation lines from index j up to the first
new-entry line: the lines whose text the accumulation loop appends. -/
def contLines (lines : List String) : Nat → Nat → List String
  | 0, _ => []
  | fuel + 1, j =>
    if h : j < lines.length then
      let nextLine := trimSpace lines[j]
      if matchEnvKeyLine nextLine then []
      else if nextLine == "" then contLines lines fuel (j + 1)
      else nextLine :: contLines lines fuel (j + 1)
    else []

/-- Join continuation lines, each preceded by a newline character. -/
def joinCont (ls : List String) : String :=
  ls.foldr (fun l acc => "\n" ++ l ++ acc) ""

/-! ## ARN handling (ExtractParameterName, features/utils.go) -/

/-- Model of ExtractParameterName: split the ARN on colons; the result is
empty unless there are at least six parts, the third is ssm and the sixth
starts with parameter/; otherwise it is a slash followed by the sixth
part with that marker removed. -/
def ExtractParameterName (arn : String) : String :=
  let parts := goSplit arn ':'
  if parts.length < 6 || !(parts.getD 2 "" == "ssm") then ""
  else
    let paramPath := parts.getD 5 ""
    if !hasPrefixStr paramPath "parameter/" then ""
    else "/" ++ trimPrefixGo paramPath "parameter/"

/-- Validity of an SSM parameter ARN, written following the spec's words:
at least six colon-separated parts, third part ssm, sixth part starting
with parameter/. -/
def validSsmArn (arn : String) : Bool :=
  let parts := goSplit arn ':'
  decide (6 ≤ parts.length) && (parts.getD 2 "" == "ssm")
    && hasPrefixStr (parts.getD 5 "") "parameter/"

/-- ARN-to-path extraction written following the spec's words, for
comparison with the source definition: on a valid shape, a slash followed
by the remainder of the sixth part after the parameter/ marker; on any
other shape the empty string. -/
def extractPathSpec (arn : String) : String :=
  let parts := goSplit arn ':'
  if validSsmArn arn then "/" ++ trimPrefixGo (parts.getD 5 "") "parameter/" else ""

/-! ## Remote-store loop models (GetParametersFromFile and
PutParametersFromTemplate) -/

/-- The remote parameter store: a map from path to stored value and type. -/
def Store := String → Option (String × ParameterType)

/-- Model of the type normalization in PutParametersFromTemplate: the
template's type string is lower-cased and mapped to a parameter type,
defaulting to String. -/
def normalizeTypeStr (t : String) : ParameterType :=
  let s := toLowerStr t
  if s == "string" then StringType
  else if s == "stringlist" then StringListType
  else if s == "securestring" then SecureStringType
  else StringType

/-- The parameter path PutParametersFromTemplate targets for a secret:
the path extracted from ValueFrom or, when that extraction signals an
invalid ARN, the hardcoded fallback "/preprod/testing/" concatenated with
the lower-cased secret name. -/
def resolveParamName (s : ExtendedSecret) : String :=
  let p := ExtractParameterName s.ValueFrom
  if p == "" then "/preprod/testing/" ++ toLowerStr s.Name else p

/-- One PutParameter call with Overwrite enabled: the store afterwards
holds the new value and type at the path and is unchanged elsewhere. -/
def putStore (store : Store) (name value : String) (t : ParameterType) : Store :=
  fun p => if p == name then some (value, t) else store p

/-- The secrets loop of PutParametersFromTemplate over an abstract store:
an entry with an empty value is logged and skipped; otherwise the type is
normalized, the path resolved and the parameter written.  A failing
PutParameter call (the fail oracle names the paths the remote store
rejects) makes the function return that error immediately, as the Go loop
returns on a put error.  The result is the final store, the paths written
in order, and the name of the failing secret when one aborted the loop. -/
def putSecretsLoop (fail : String → Bool) :
    List ExtendedSecret → Store → Store × List String × Option String
  | [], store => (store, [], none)
  | s :: rest, store =>
    if s.Value == "" then putSecretsLoop fail rest store
    else
      let pt := normalizeTypeStr s.Typ
      let nm := resolveParamName s
      if fail nm then (store, [], some s.Name)
      else
        let r := putSecretsLoop fail rest (putStore store nm s.Value pt)
        (r.1, nm :: r.2.1, r.2.2)

/-- The secrets loop of GetParametersFromFile over an abstract remote
getter, on (name, valueFrom) pairs: a secret whose valueFrom is not a
valid ARN is logged and skipped, a failing remote fetch is logged and
skipped, and a successful fetch records the name with the fetched value;
no outcome stops the remaining items. -/
def getSecretsLoop (get : String → Except String (String × ParameterType)) :
    List (String × String) → List (String × String)
  | [] => []
  | nv :: rest =>
    let paramName := ExtractParameterName nv.2
    if paramName == "" then getSecretsLoop get rest
    else
      match get paramName with
      | Except.error _ => getSecretsLoop get rest
      | Except.ok vt => (nv.1, vt.1) :: getSecretsLoop get rest

/-! ## By-prefix retrieval (GetParametersByPrefix, features/get.go) -/

/-- The remote type tag mapping used when reading parameters back:
unrecognized tags default to String. -/
def mapRemoteType (t : String) : ParameterType :=
  if t == "String" then StringType
  else if t == "StringList" then StringListType
  else if t == "SecureString" then SecureStringType
  else StringType

/-- A parameter as returned by the remote GetParametersByPath call. -/
structure RemoteParam where
  name : String
  value : String
  ptype : String
deriving DecidableEq, Repr

/-- Per-parameter processing of GetParametersByPrefix: the env key is the
full path with the queried prefix trimmed from the front (kept unchanged
when the path does not start with it), and the JSON secret carries the
key as name, the full path as ValueFrom, the mapped type and the
decrypted value. -/
def processPrefixParam (pre : String) (p : RemoteParam) : (String × String) × ExtendedSecret :=
  let key0 := trimPrefixGo p.name pre
  let key := if key0 == p.name then p.name else key0
  ((key, p.value),
   { Name := key, ValueFrom := p.name, Typ := mapRemoteType p.ptype, Value := p.value })

/-- The parameter-processing loop of GetParametersByPrefix over the
page-flattened list of returned parameters, building the env pairs and
the secrets in arrival order. -/
def getByPrefixCore (pre : String) (params : List RemoteParam) :
    List (String × String) × List ExtendedSecret :=
  params.foldl
    (fun acc p =>
      let r := processPrefixParam pre p
      (acc.1 ++ [r.1], acc.2 ++ [r.2]))
    ([], [])

end ParamStore

namespace ParamStore

/-! ## Basic string lemmas -/

/-- String append is associative. -/
theorem strAppend_assoc (a b c : String) : a ++ b ++ c = a ++ (b ++ c) := by
  apply String.ext
  simp [String.data_append, List.append_assoc]

/-- The empty string is a right unit for append. -/
theorem strAppend_empty (a : String) : a ++ "" = a := by
  apply String.ext
  simp [String.data_append]

/-! ## Lemmas about the accumulation loop -/

/-- The value built by the accumulation loop is the initial value followed
by every trimmed non-empty continuation line, each preceded by a newline. -/
theorem accumulate_fst (lines : List String) :
    ∀ (fuel j : Nat) (v : String) (iCur : Nat),
      (accumulate lines fuel j v iCur).1 = v ++ joinCont (contLines lines fuel j) := by
  intro fuel
  induction fuel with
  | zero => intro j v iCur; simp [accumulate, contLines, joinCont, strAppend_empty]
  | succ fuel ih =>
    intro j v iCur
    by_cases hj : j < lines.length
    · simp only [accumulate, contLines, hj, dif_pos]
      by_cases hm : matchEnvKeyLine (trimSpace lines[j])
      · simp [hm, joinCont, strAppend_empty]
      · simp only [hm, if_false, Bool.false_eq_true]
        by_cases he : trimSpace lines[j] == ""
        · simp only [he, if_pos, if_true]
          exact ih (j + 1) v _
        · simp only [he, if_neg, Bool.false_eq_true, if_false]
          rw [ih (j + 1) _ _]
          simp [joinCont, strAppend_assoc]
    · simp [accumulate, contLines, hj, joinCont, strAppend_empty]

/-- The index returned by the accumulation loop never falls below the
index of the line that opened the entry. -/
theorem accumulate_snd_ge (lines : List String) (i : Nat) :
    ∀ (fuel j : Nat) (v : String) (iCur : Nat),
      i ≤ iCur → i < j → i ≤ (accumulate lines fuel j v iCur).2 := by
  intro fuel
  induction fuel with
  | zero => intro j v iCur hc _; simpa [accumulate] using hc
  | succ fuel ih =>
    intro j v iCur hc hj
    by_cases hlt : j < lines.length
    · simp only [accumulate, hlt, dif_pos]
      by_cases hm : matchEnvKeyLine (trimSpace lines[j])
      · simp only [hm, if_pos]
        omega
      · simp only [hm, if_false, Bool.false_eq_true]
        apply ih (j + 1)
        · by_cases hl : j == lines.length - 1
          · simp only [hl, if_pos]; omega
          · simpa [hl] using hc
        · omega
    · simpa [accumulate, hlt] using hc

/-- The fuel bound of the accumulation loop is inessential: any two fuel
amounts covering the remaining lines give the same result, so the loop is
determined by the line list alone, as in the source. -/
theorem accumulate_fuel_irrel (lines : List String) :
    ∀ (f1 f2 j : Nat) (v : String) (iCur : Nat),
      lines.length - j ≤ f1 → lines.length - j ≤ f2 →
      accumulate lines f1 j v iCur = accumulate lines f2 j v iCur := by
  intro f1
  induction f1 with
  | zero =>
    intro f2 j v iCur h1 h2
    have hj : ¬ j < lines.length := by omega
    cases f2 with
    | zero => rfl
    | succ g => simp [accumulate, hj]
  | succ f1 ih =>
    intro f2 j v iCur h1 h2
    by_cases hj : j < lines.length
    · cases f2 with
      | zero => omega
      | succ g =>
        simp only [accumulate, hj, dif_pos]
        by_cases hm : matchEnvKeyLine (trimSpace lines[j])
        · simp [hm]
        · simp only [hm, Bool.false_eq_true, if_false]
          exact ih g (j + 1) _ _ (by omega) (by omega)
    · cases f2 with
      | zero => simp [accumulate, hj]
      | succ g => simp [accumulate, hj]

/-! ## Lemmas about the outer parsing loop -/

/-- Every entry produced from line index i onwards was opened at a line
index at least i. -/
theorem genSecretsGo_ge (lines : List String) (pre : String) :
    ∀ (fuel i : Nat) (x : Nat × ExtendedSecret),
      x ∈ genSecretsGo lines pre fuel i → i ≤ x.1 := by
  intro fuel
  induction fuel with
  | zero => intro i x hx; simp [genSecretsGo] at hx
  | succ fuel ih =>
    intro i x hx
    by_cases hi : i < lines.length
    · simp only [genSecretsGo, hi, dif_pos] at hx
      by_cases hskip : trimSpace lines[i] == "" || hasPrefixStr (trimSpace lines[i]) "#"
      · simp only [hskip, if_pos] at hx
        have := ih (i + 1) x hx
        omega
      · simp only [hskip, Bool.false_eq_true, if_false] at hx
        cases hsp : splitFirstEq (trimSpace lines[i]) with
        | none =>
          rw [hsp] at hx
          have := ih (i + 1) x hx
          omega
        | some kv =>
          rw [hsp] at hx
          rcases List.mem_cons.mp hx with h1 | h2
          · subst h1; exact Nat.le_refl i
          · have hacc : i ≤ (accumulate lines (lines.length - (i + 1)) (i + 1)
                (trimSpace kv.2) i).2 :=
              accumulate_snd_ge lines i _ (i + 1) _ i (Nat.le_refl i) (Nat.lt_succ_self i)
            have := ih _ x h2
            omega
    · simp [genSecretsGo, hi] at hx

/-- The opening line indices of the parsed entries are strictly
increasing: entries appear in input order and two occurrences of the same
key stay distinct entries. -/
theorem genSecretsGo_pairwise (lines : List String) (pre : String) :
    ∀ (fuel i : Nat),
      List.Pairwise (fun a b => a.1 < b.1) (genSecretsGo lines pre fuel i) := by
  intro fuel
  induction fuel with
  | zero => intro i; simp [genSecretsGo]
  | succ fuel ih =>
    intro i
    by_cases hi : i < lines.length
    · simp only [genSecretsGo, hi, dif_pos]
      by_cases hskip : trimSpace lines[i] == "" || hasPrefixStr (trimSpace lines[i]) "#"
      · simp only [hskip, if_pos]
        exact ih (i + 1)
      · simp only [hskip, Bool.false_eq_true, if_false]
        cases hsp : splitFirstEq (trimSpace lines[i]) with
        | none => exact ih (i + 1)
        | some kv =>
          refine List.Pairwise.cons ?_ (ih _)
          intro y hy
          have hge := genSecretsGo_ge lines pre fuel _ y hy
          have hacc : i ≤ (accumulate lines (lines.length - (i + 1)) (i + 1)
              (trimSpace kv.2) i).2 :=
            accumulate_snd_ge lines i _ (i + 1) _ i (Nat.le_refl i) (Nat.lt_succ_self i)
          simp only
          omega
    · simp [genSecretsGo, hi]

/-- The fuel bound of the outer parsing loop is inessential: any two fuel
amounts covering the remaining lines give the same entries, so the
parser is determined by the line list alone, as in the source; in
particular the lines.length fuel used by genSecretsIdx always suffices. -/
theorem genSecretsGo_fuel_irrel (lines : List String) (pre : String) :
    ∀ (f1 f2 i : Nat),
      lines.length - i ≤ f1 → lines.length - i ≤ f2 →
      genSecretsGo lines pre f1 i = genSecretsGo lines pre f2 i := by
  intro f1
  induction f1 with
  | zero =>
    intro f2 i h1 h2
    have hi : ¬ i < lines.length := by omega
    cases f2 with
    | zero => rfl
    | succ g => simp [genSecretsGo, hi]
  | succ f1 ih =>
    intro f2 i h1 h2
    by_cases hi : i < lines.length
    · cases f2 with
      | zero => omega
      | succ g =>
        simp only [genSecretsGo, hi, dif_pos]
        by_cases hskip : trimSpace lines[i] == "" || hasPrefixStr (trimSpace lines[i]) "#"
        · simp only [hskip, if_pos]
          exact ih g (i + 1) (by omega) (by omega)
        · simp only [hskip, Bool.false_eq_true, if_false]
          cases hsp : splitFirstEq (trimSpace lines[i]) with
          | none => exact ih g (i + 1) (by omega) (by omega)
          | some kv =>
            have hacc : i ≤ (accumulate lines (lines.length - (i + 1)) (i + 1)
                (trimSpace kv.2) i).2 :=
              accumulate_snd_ge lines i _ (i + 1) _ i (Nat.le_refl i) (Nat.lt_succ_self i)
            dsimp only
            rw [ih g _ (by omega) (by omega)]
    · cases f2 with
      | zero => simp [genSecretsGo, hi]
      | succ g => simp [genSecretsGo, hi]

/-- Every entry the parser produces carries a reference equal to the
configured prefix concatenated with its raw key. -/
theorem genSecretsGo_valueFrom (lines : List String) (pre : String) :
    ∀ (fuel i : Nat) (x : Nat × ExtendedSecret),
      x ∈ genSecretsGo lines pre fuel i → x.2.ValueFrom = pre ++ x.2.Name := by
  intro fuel
  induction fuel with
  | zero => intro i x hx; simp [genSecretsGo] at hx
  | succ fuel ih =>
    intro i x hx
    by_cases hi : i < lines.length
    · simp only [genSecretsGo, hi, dif_pos] at hx
      by_cases hskip : trimSpace lines[i] == "" || hasPrefixStr (trimSpace lines[i]) "#"
      · simp only [hskip, if_pos] at hx
        exact ih (i + 1) x hx
      · simp only [hskip, Bool.false_eq_true, if_false] at hx
        cases hsp : splitFirstEq (trimSpace lines[i]) with
        | none =>
          rw [hsp] at hx
          exact ih (i + 1) x hx
        | some kv =>
          rw [hsp] at hx
          rcases List.mem_cons.mp hx with h1 | h2
          · subst h1; rfl
          · exact ih _ x h2
    · simp [genSecretsGo, hi] at hx

/-! ## Claims about the classifier -/

/-- C1: a key containing (case-insensitively) any secret keyword forces the
SecureString classification, for every value including the empty one, and
the keyword rule short-circuits every value-based rule. -/
theorem claim1_keyword_rule_dominates (key : String)
    (h : secretKeywords.any (fun kw => containsStr (toLowerStr key) kw) = true) :
    (∀ value : String, detectParameterType key value = SecureStringType) ∧
      detectParameterType key "" = SecureStringType := by
  constructor
  · intro value
    simp [detectParameterType, h]
  · simp [detectParameterType, h]

/-- Witness for C1 at the concrete key DB_PASSWORD and the empty value. -/
theorem claim1_keyword_rule_dominates_witness :
    detectParameterType "DB_PASSWORD" "" = SecureStringType :=
  (claim1_keyword_rule_dominates "DB_PASSWORD" (by decide)).2

/-- C2: the classifier is total and deterministic: it always returns exactly
one of the two values String and SecureString (never StringList, never a
failure), and equal inputs give equal outputs. -/
theorem claim2_classifier_total_deterministic (key value : String) :
    (detectParameterType key value = StringType ∨
      detectParameterType key value = SecureStringType) ∧
    (∀ key2 value2 : String, key2 = key → value2 = value →
      detectParameterType key2 value2 = detectParameterType key value) := by
  refine ⟨?_, ?_⟩
  · unfold detectParameterType
    dsimp only
    repeat' split
    all_goals first
      | exact Or.inl rfl
      | exact Or.inr rfl
  · intro key2 value2 hk hv
    rw [hk, hv]

/-- Witness for C2 at a concrete key and value: the hypotheses of the
determinism conjunct are discharged at NAME and John Doe. -/
theorem claim2_classifier_total_deterministic_witness :
    detectParameterType "NAME" "John Doe" = detectParameterType "NAME" "John Doe" :=
  (claim2_classifier_total_deterministic "NAME" "John Doe").2 "NAME" "John Doe" rfl rfl

/-! ## Claims about the env-file parser -/

/-- C3: the multi-line accumulation appends to the open value every
trimmed non-empty continuation line preceded by a newline, stopping at
the first new-entry line; on the four-line certificate example the parser
produces exactly the two entries CERT (whose value embeds two newlines
and the three body lines) and NEXT with value2. -/
theorem claim3_multiline_values :
    (∀ (lines : List String) (fuel j : Nat) (v : String) (iCur : Nat),
        (accumulate lines fuel j v iCur).1 = v ++ joinCont (contLines lines fuel j)) ∧
      ((genSecrets
            ["CERT=-----BEGIN CERTIFICATE-----",
             "MIIBIjANBgkqhkiG9w0BAQEFAAOCAQ8A...",
             "-----END CERTIFICATE-----",
             "NEXT=value2"] "").map (fun s => (s.Name, s.Value)) =
          [("CERT",
            "-----BEGIN CERTIFICATE-----\nMIIBIjANBgkqhkiG9w0BAQEFAAOCAQ8A...\n-----END CERTIFICATE-----"),
           ("NEXT", "value2")] ∧
        (genSecrets
            ["CERT=-----BEGIN CERTIFICATE-----",
             "MIIBIjANBgkqhkiG9w0BAQEFAAOCAQ8A...",
             "-----END CERTIFICATE-----",
             "NEXT=value2"] "").map (fun s => s.Value.data.count '\n') = [2, 0]) :=
  ⟨fun lines fuel j v iCur => accumulate_fst lines fuel j v iCur, by decide⟩

/-- C4: the parser's output preserves input order and never merges
duplicate keys: the opening line indices of the produced entries are
strictly increasing (so each entry stems from its own line, in input
order), and a file repeating a key yields one entry per occurrence. -/
theorem claim4_order_preserved_duplicates_kept :
    (∀ (lines : List String) (pre : String),
        genSecrets lines pre = (genSecretsIdx lines pre).map Prod.snd ∧
          List.Pairwise (fun a b => a.1 < b.1) (genSecretsIdx lines pre)) ∧
      (genSecrets ["DB_HOST=one", "DB_HOST=two"] "/p/").map
          (fun s => (s.Name, s.Value)) = [("DB_HOST", "one"), ("DB_HOST", "two")] :=
  ⟨fun lines pre => ⟨rfl, genSecretsGo_pairwise lines pre lines.length 0⟩, by decide⟩

/-- C9: GenerateTaskDefFromEnv places every parsed entry, whatever its
detected type, into the secrets array of a single container definition;
the environment array is never populated and exactly one container
definition is produced. -/
theorem claim9_single_container_secrets_only (content pre : String) :
    (generateTaskDefFromEnv content pre).ContainerDefinitions.length = 1 ∧
      (generateTaskDefFromEnv content pre).ContainerDefinitions.map
          ContainerDefinition.Environment = [[]] ∧
      (generateTaskDefFromEnv content pre).ContainerDefinitions.map
          ContainerDefinition.Secrets = [genSecrets (splitLines content) pre] :=
  ⟨rfl, rfl, rfl⟩

/-! ## Claims about ARN extraction -/

/-- A string beginning with a slash is never empty. -/
theorem slashAppend_ne_empty (x : String) : ¬("/" ++ x = "") := by
  intro h
  have hd : ("/" ++ x).data = ("" : String).data := by rw [h]
  simp [String.data_append] at hd

/-- C5: ExtractParameterName agrees with the spec's description: it
returns a non-empty path exactly on ARNs with at least six colon parts,
ssm as the third and a sixth starting with parameter/, in which case the
result is a slash followed by the remainder after that marker, and it
returns the empty string on every other shape; the spec's round-trip
example extracts as stated. -/
theorem claim5_arn_extraction (arn : String) :
    ExtractParameterName arn = extractPathSpec arn ∧
      ((ExtractParameterName arn == "") = !validSsmArn arn) ∧
      ExtractParameterName
          "arn:aws:ssm:ap-southeast-3:123456789012:parameter/app/db/password"
        = "/app/db/password" := by
  refine ⟨?_, ?_, by decide⟩
  · dsimp only [ExtractParameterName, extractPathSpec, validSsmArn]
    generalize goSplit arn ':' = parts
    generalize parts.getD 2 "" = a
    generalize parts.getD 5 "" = b
    by_cases h1 : 6 ≤ parts.length
    · by_cases h2 : a = "ssm"
      · by_cases h3 : hasPrefixStr b "parameter/" = true
        · simp [Nat.not_lt.2 h1, h1, h2, h3]
        · have h4 : hasPrefixStr b "parameter/" = false := by simpa using h3
          simp [Nat.not_lt.2 h1, h1, h2, h4]
      · simp [Nat.not_lt.2 h1, h1, h2]
    · simp [Nat.lt_of_not_le h1, h1]
  · dsimp only [ExtractParameterName, validSsmArn]
    generalize goSplit arn ':' = parts
    generalize parts.getD 2 "" = a
    generalize parts.getD 5 "" = b
    by_cases h1 : 6 ≤ parts.length
    · by_cases h2 : a = "ssm"
      · by_cases h3 : hasPrefixStr b "parameter/" = true
        · simp [Nat.not_lt.2 h1, h1, h2, h3, beq_eq_false_iff_ne,
            slashAppend_ne_empty]
        · have h4 : hasPrefixStr b "parameter/" = false := by simpa using h3
          simp [Nat.not_lt.2 h1, h1, h2, h4]
      · simp [Nat.not_lt.2 h1, h1, h2]
    · simp [Nat.lt_of_not_le h1, h1]

/-! ## Helper lemmas for the bulk-operation loops -/

/-- The get loop distributes over concatenation: the processing of every
item is independent of the outcomes of the items before it. -/
theorem getSecretsLoop_append
    (get : String → Except String (String × ParameterType)) :
    ∀ xs ys : List (String × String),
      getSecretsLoop get (xs ++ ys) =
        getSecretsLoop get xs ++ getSecretsLoop get ys := by
  intro xs ys
  induction xs with
  | nil => simp [getSecretsLoop]
  | cons nv rest ih =>
    by_cases h : ExtractParameterName nv.2 == ""
    · simp [getSecretsLoop, h, ih]
    · cases hg : get (ExtractParameterName nv.2) with
      | error e => simp [getSecretsLoop, h, hg, ih]
      | ok vt => simp [getSecretsLoop, h, hg, ih]

/-- An entry with an empty value is skipped by the put loop: the loop on
it and the rest equals the loop on the rest alone. -/
theorem putSecretsLoop_skip_empty (fail : String → Bool) (s : ExtendedSecret)
    (rest : List ExtendedSecret) (store : Store) (h : s.Value = "") :
    putSecretsLoop fail (s :: rest) store = putSecretsLoop fail rest store := by
  simp [putSecretsLoop, h]

/-- Frame property of the put loop: a path targeted only by empty-valued
entries (or by no entry at all) holds the same store contents after the
loop as before it. -/
theorem putSecretsLoop_frame (fail : String → Bool) :
    ∀ (secrets : List ExtendedSecret) (store : Store) (p : String),
      (∀ s ∈ secrets, s.Value = "" ∨ resolveParamName s ≠ p) →
      (putSecretsLoop fail secrets store).1 p = store p := by
  intro secrets
  induction secrets with
  | nil => intro store p _; rfl
  | cons s rest ih =>
    intro store p h
    by_cases hv : s.Value == ""
    · simp only [putSecretsLoop, hv, if_pos]
      exact ih store p (fun t ht => h t (List.mem_cons_of_mem s ht))
    · have hsv : s.Value ≠ "" := by simpa using hv
      have hp : resolveParamName s ≠ p := by
        rcases h s (List.mem_cons_self s rest) with h1 | h1
        · exact absurd h1 hsv
        · exact h1
      simp only [putSecretsLoop, hv, Bool.false_eq_true, if_false]
      by_cases hf : fail (resolveParamName s)
      · simp [hf]
      · simp only [hf, Bool.false_eq_true, if_false]
        rw [ih _ p (fun t ht => h t (List.mem_cons_of_mem s ht))]
        simp [putStore, Ne.symm hp]

/-! ## Claims about the bulk-operation loops -/

/-- C6 counterexample: in put-from-template a remote put failure on the
first secret aborts the batch.  With a store rejecting only the first
path, the loop on the two-secret template stops with the first secret's
error, writes nothing, and leaves the second path empty, although the
loop on the second secret alone writes it. -/
theorem claim6_counterexample :
    (putSecretsLoop (fun p => p == "/a/one")
        [⟨"S1", "arn:aws:ssm:r:acct:parameter/a/one", "string", "v1"⟩,
         ⟨"S2", "arn:aws:ssm:r:acct:parameter/a/two", "string", "v2"⟩]
        (fun _ => none)).2.2 = some "S1" ∧
      (putSecretsLoop (fun p => p == "/a/one")
          [⟨"S1", "arn:aws:ssm:r:acct:parameter/a/one", "string", "v1"⟩,
           ⟨"S2", "arn:aws:ssm:r:acct:parameter/a/two", "string", "v2"⟩]
          (fun _ => none)).2.1 = [] ∧
      (putSecretsLoop (fun p => p == "/a/one")
          [⟨"S1", "arn:aws:ssm:r:acct:parameter/a/one", "string", "v1"⟩,
           ⟨"S2", "arn:aws:ssm:r:acct:parameter/a/two", "string", "v2"⟩]
          (fun _ => none)).1 "/a/two" = none ∧
      (putSecretsLoop (fun p => p == "/a/one")
          [⟨"S2", "arn:aws:ssm:r:acct:parameter/a/two", "string", "v2"⟩]
          (fun _ => none)).2.1 = ["/a/two"] := by
  refine ⟨rfl, rfl, ?_, rfl⟩
  decide

/-- C6 amended: in get-from-file a per-item error (invalid ARN or failed
remote fetch) is logged and the loop continues, so processing distributes
over concatenation; in put-from-template an empty-valued entry is logged
and skipped without stopping the loop, but a remote put failure aborts
the remaining items. -/
theorem claim6_per_item_errors :
    (∀ (get : String → Except String (String × ParameterType))
        (xs ys : List (String × String)),
        getSecretsLoop get (xs ++ ys) =
          getSecretsLoop get xs ++ getSecretsLoop get ys) ∧
      (∀ (fail : String → Bool) (s : ExtendedSecret)
          (rest : List ExtendedSecret) (store : Store),
          s.Value = "" →
          putSecretsLoop fail (s :: rest) store = putSecretsLoop fail rest store) :=
  ⟨getSecretsLoop_append, putSecretsLoop_skip_empty⟩

/-- Witness for C6 amended: the empty-value hypothesis is discharged at a
concrete secret, and the concatenation conjunct at concrete lists. -/
theorem claim6_per_item_errors_witness :
    getSecretsLoop (fun _ => Except.error "down") ([("A", "bad")] ++ [("B", "bad")]) =
        getSecretsLoop (fun _ => Except.error "down") [("A", "bad")] ++
          getSecretsLoop (fun _ => Except.error "down") [("B", "bad")] ∧
      putSecretsLoop (fun _ => false) [⟨"E", "vf", "string", ""⟩] (fun _ => none) =
        putSecretsLoop (fun _ => false) [] (fun _ => none) :=
  ⟨claim6_per_item_errors.1 (fun _ => Except.error "down") [("A", "bad")] [("B", "bad")],
   claim6_per_item_errors.2 (fun _ => false) ⟨"E", "vf", "string", ""⟩ [] (fun _ => none) rfl⟩

/-- C7 counterexample: the fallback reference put-from-template
synthesizes for the secret DB_HOST with an invalid ARN is the hardcoded
prefix with the lower-cased name, not the configured prefix (here the
default /preprod/testing/) with the raw key. -/
theorem claim7_counterexample :
    resolveParamName ⟨"DB_HOST", "not-an-arn", "string", "x"⟩
        = "/preprod/testing/db_host" ∧
      resolveParamName ⟨"DB_HOST", "not-an-arn", "string", "x"⟩
        ≠ "/preprod/testing/" ++ "DB_HOST" := by
  refine ⟨rfl, ?_⟩
  decide

/-- C7 amended: in generate every synthesized reference is the configured
prefix concatenated with the raw key with no normalization; in
put-from-template, when ValueFrom is not a valid ARN, the fallback is the
hardcoded prefix /preprod/testing/ concatenated with the lower-cased
secret name. -/
theorem claim7_synthesized_references :
    (∀ (lines : List String) (pre : String) (e : ExtendedSecret),
        e ∈ genSecrets lines pre → e.ValueFrom = pre ++ e.Name) ∧
      (∀ s : ExtendedSecret, ExtractParameterName s.ValueFrom = "" →
        resolveParamName s = "/preprod/testing/" ++ toLowerStr s.Name) := by
  constructor
  · intro lines pre e he
    rcases List.mem_map.mp he with ⟨x, hx, hxe⟩
    rw [← hxe]
    exact genSecretsGo_valueFrom lines pre lines.length 0 x hx
  · intro s h
    simp [resolveParamName, h]

/-- Witness for C7 amended: the membership hypothesis is discharged at
the entry parsed from a one-line file, and the invalid-ARN hypothesis at
a concrete secret. -/
theorem claim7_synthesized_references_witness :
    ((genSecrets ["A_B=1"] "/p/").headD ⟨"", "", "", ""⟩).ValueFrom =
        "/p/" ++ ((genSecrets ["A_B=1"] "/p/").headD ⟨"", "", "", ""⟩).Name ∧
      resolveParamName ⟨"NAME", "bad", "string", "v"⟩ =
        "/preprod/testing/" ++ toLowerStr "NAME" :=
  ⟨claim7_synthesized_references.1 ["A_B=1"] "/p/" _ (by decide),
   claim7_synthesized_references.2 ⟨"NAME", "bad", "string", "v"⟩ (by decide)⟩

/-- C10: an entry whose value is empty is skipped by the put loop (its
processing issues no PutParameter call), and a path targeted only by
empty-valued entries holds the same remote contents after the operation
as before it. -/
theorem claim10_empty_value_skipped :
    (∀ (fail : String → Bool) (s : ExtendedSecret)
        (rest : List ExtendedSecret) (store : Store),
        s.Value = "" →
        putSecretsLoop fail (s :: rest) store = putSecretsLoop fail rest store) ∧
      (∀ (fail : String → Bool) (secrets : List ExtendedSecret)
          (store : Store) (p : String),
          (∀ s ∈ secrets, s.Value = "" ∨ resolveParamName s ≠ p) →
          (putSecretsLoop fail secrets store).1 p = store p) :=
  ⟨putSecretsLoop_skip_empty, putSecretsLoop_frame⟩

/-- Witness for C10: both hypotheses discharged at concrete inputs, an
empty-valued secret and a path no entry targets. -/
theorem claim10_empty_value_skipped_witness :
    putSecretsLoop (fun _ => false) [⟨"K", "vf", "string", ""⟩] (fun _ => none) =
        putSecretsLoop (fun _ => false) [] (fun _ => none) ∧
      (putSecretsLoop (fun _ => false) [⟨"K", "vf", "string", ""⟩]
          (fun _ => none)).1 "/q" = none :=
  ⟨claim10_empty_value_skipped.1 (fun _ => false) ⟨"K", "vf", "string", ""⟩ []
      (fun _ => none) rfl,
   claim10_empty_value_skipped.2 (fun _ => false) [⟨"K", "vf", "string", ""⟩]
      (fun _ => none) "/q" (by decide)⟩

/-! ## Claims about by-prefix retrieval -/

/-- The env pair computed for a returned parameter: the key is the path
with the queried prefix removed from the front (the path itself
otherwise) and the value is the decrypted value. -/
theorem processPrefixParam_env (pre : String) (p : RemoteParam) :
    (processPrefixParam pre p).1 =
      ((if hasPrefixStr p.name pre
          then (⟨p.name.data.drop pre.data.length⟩ : String) else p.name),
       p.value) := by
  unfold processPrefixParam trimPrefixGo
  by_cases h : hasPrefixStr p.name pre
  · simp [h]
    intro hx
    exact hx.symm
  · simp [h]

/-- The JSON secret computed for a returned parameter: the stripped key
as name, the original full path as valueFrom, the mapped type and the
decrypted value. -/
theorem processPrefixParam_secret (pre : String) (p : RemoteParam) :
    (processPrefixParam pre p).2 =
      { Name := (if hasPrefixStr p.name pre
            then (⟨p.name.data.drop pre.data.length⟩ : String) else p.name),
        ValueFrom := p.name, Typ := mapRemoteType p.ptype, Value := p.value } := by
  unfold processPrefixParam trimPrefixGo
  by_cases h : hasPrefixStr p.name pre
  · simp [h]
    intro hx
    exact hx.symm
  · simp [h]

/-- Unfolded form of one step of the by-prefix fold. -/
theorem getByPrefixCore_fold (pre : String) :
    ∀ (params : List RemoteParam) (a : List (String × String))
      (b : List ExtendedSecret),
      params.foldl
          (fun acc p =>
            let r := processPrefixParam pre p
            (acc.1 ++ [r.1], acc.2 ++ [r.2]))
          (a, b) =
        (a ++ params.map (fun p => (processPrefixParam pre p).1),
         b ++ params.map (fun p => (processPrefixParam pre p).2)) := by
  intro params
  induction params with
  | nil => intro a b; simp
  | cons p rest ih =>
    intro a b
    simp only [List.foldl_cons, List.map_cons]
    rw [ih]
    simp

/-- C8: in by-prefix retrieval every returned parameter yields an env
pair whose key is the full path with the queried prefix removed from the
front (the full path unchanged when it does not start with the prefix)
and whose value is the decrypted value, while the JSON secret carries
valueFrom equal to the original full path and the same value; on the
spec's two-parameter scenario the env keys are DB_HOST and DB_PORT and
the secrets keep the full paths. -/
theorem claim8_prefix_stripping :
    (∀ (pre : String) (params : List RemoteParam),
        (getByPrefixCore pre params).1 =
          params.map (fun p =>
            ((if hasPrefixStr p.name pre
                then (⟨p.name.data.drop pre.data.length⟩ : String) else p.name),
             p.value)) ∧
        (getByPrefixCore pre params).2 =
          params.map (fun p =>
            { Name := (if hasPrefixStr p.name pre
                  then (⟨p.name.data.drop pre.data.length⟩ : String) else p.name),
              ValueFrom := p.name, Typ := mapRemoteType p.ptype,
              Value := p.value })) ∧
      getByPrefixCore "/prod/app/"
          [⟨"/prod/app/DB_HOST", "db.local", "String"⟩,
           ⟨"/prod/app/DB_PORT", "5432", "SecureString"⟩] =
        ([("DB_HOST", "db.local"), ("DB_PORT", "5432")],
         [⟨"DB_HOST", "/prod/app/DB_HOST", "String", "db.local"⟩,
          ⟨"DB_PORT", "/prod/app/DB_PORT", "SecureString", "5432"⟩]) := by
  refine ⟨?_, by decide⟩
  intro pre params
  have hcore := getByPrefixCore_fold pre params [] []
  constructor
  · rw [getByPrefixCore, hcore]
    simp only [List.nil_append]
    apply List.map_congr_left
    intro p _
    exact processPrefixParam_env pre p
  · rw [getByPrefixCore, hcore]
    simp only [List.nil_append]
    apply List.map_congr_left
    intro p _
    exact processPrefixParam_secret pre p

end ParamStore
